import Mathlib

/-!
Shallow embedding of the gamification subsystem of the eyearrell community
directory service, together with its email rate limiter.

Embedded source files:
* `src/service/src/services/gamification-service.ts`
* `src/service/src/services/achievement-triggers.ts`
* `src/service/src/lib/rate-limit.ts`

Database tables are embedded as lists of rows inside a `GamState`; Prisma
query helpers (`findUnique`, `findMany` with `orderBy`, `$transaction`) are
embedded as list lookups, `mergeSort`, and an atomic all-or-nothing state
update respectively.  JavaScript truthiness of the nullable string columns
(`pronouns`, `imageURL`) and of the non-null `firstName` column is embedded
explicitly: `null` and the empty string are falsy.
-/

/-- Row of the `achievements` table (columns used by the service). -/
structure Achievement where
  id : Nat
  key : String
  name : String
  points : Int
  isActive : Bool
deriving DecidableEq, Repr

/-- Row of the `user_achievements` table; the table has a unique index on
(userId, achievementId). -/
structure UserAchievement where
  userId : Nat
  achievementId : Nat
deriving DecidableEq, Repr

/-- Row of the `point_transactions` table. -/
structure PointTransaction where
  userId : Nat
  achievementId : Option Nat
  points : Int
  reason : String
deriving DecidableEq, Repr

/-- Row of the `levels` table. -/
structure Level where
  levelNumber : Nat
  name : String
  pointsRequired : Int
deriving DecidableEq, Repr

/-- Row of the `contact_information` table (columns read by the triggers). -/
structure ContactInformation where
  type : String
  privacy : String
  deleted : Bool
deriving DecidableEq, Repr

/-- Join row `person_contact_information`, included with its contact row. -/
structure PersonContact where
  contactInformation : ContactInformation
deriving DecidableEq, Repr

/-- Row of the `interests` table (column read by the triggers). -/
structure Interest where
  deleted : Bool
deriving DecidableEq, Repr

/-- Join row `person_interests`, included with its interest row. -/
structure PersonInterest where
  interest : Interest
deriving DecidableEq, Repr

/-- Row of the `groups` table (column read by the triggers). -/
structure GroupRow where
  deleted : Bool
deriving DecidableEq, Repr

/-- Join row for group membership, included with its group row. -/
structure GroupMembership where
  isAdmin : Bool
  group : GroupRow
deriving DecidableEq, Repr

/-- Row of the `people` table together with the relations the trigger
queries include.  `firstName` is a non-null text column; `pronouns` and
`imageURL` are nullable. -/
structure Person where
  id : Nat
  userId : Nat
  firstName : String
  pronouns : Option String
  imageURL : Option String
  contactInformation : List PersonContact
  interests : List PersonInterest
  groupMemberships : List GroupMembership
deriving DecidableEq, Repr

/-- The database state read and written by the gamification subsystem. -/
structure GamState where
  achievements : List Achievement
  userAchievements : List UserAchievement
  pointTransactions : List PointTransaction
  levels : List Level
  persons : List Person
deriving DecidableEq, Repr

/-- JavaScript truthiness of a non-null string column: empty string is falsy. -/
def truthyStr (s : String) : Bool := !s.isEmpty

/-- JavaScript truthiness of a nullable string column: null and the empty
string are falsy. -/
def truthyOpt : Option String → Bool
  | none => false
  | some s => !s.isEmpty

/-- `prisma.achievement.findUnique` on the unique `key` column. -/
def findAchievement (s : GamState) (key : String) : Option Achievement :=
  s.achievements.find? (fun a => a.key == key)

/-- `prisma.person.findUnique` on the primary key. -/
def findPerson (s : GamState) (personId : Nat) : Option Person :=
  s.persons.find? (fun p => p.id == personId)

/-- `GamificationService.getUserPoints`: sum of the `points` of all of the
point transactions of the user, clamped with `Math.max(0, totalPoints)`. -/
def getUserPoints (s : GamState) (userId : Nat) : Int :=
  let transactions := s.pointTransactions.filter (fun t => t.userId == userId)
  let totalPoints := transactions.foldl (fun sum t => sum + t.points) 0
  max 0 totalPoints

/-- `prisma.level.findMany` ordered by `pointsRequired` descending. -/
def levelsDesc (s : GamState) : List Level :=
  s.levels.mergeSort (fun a b => b.pointsRequired ≤ a.pointsRequired)

/-- `prisma.level.findMany` ordered by `pointsRequired` ascending. -/
def levelsAsc (s : GamState) : List Level :=
  s.levels.mergeSort (fun a b => a.pointsRequired ≤ b.pointsRequired)

/-- `GamificationService.getUserLevel`: first level, in descending
`pointsRequired` order, with `totalPoints >= level.pointsRequired`. -/
def getUserLevel (s : GamState) (userId : Nat) : Option Level :=
  let totalPoints := getUserPoints s userId
  (levelsDesc s).find? (fun level => level.pointsRequired ≤ totalPoints)

/-- `GamificationService.getNextLevel`: first level, in ascending
`pointsRequired` order, with `level.pointsRequired > totalPoints`. -/
def getNextLevel (s : GamState) (userId : Nat) : Option Level :=
  let totalPoints := getUserPoints s userId
  (levelsAsc s).find? (fun level => totalPoints < level.pointsRequired)

/-- `GamificationService.hasAchievement`: look the achievement up by key,
then look for the (userId, achievementId) row. -/
def hasAchievement (s : GamState) (userId : Nat) (achievementKey : String) : Bool :=
  match findAchievement s achievementKey with
  | none => false
  | some achievement =>
      s.userAchievements.any
        (fun ua => ua.userId == userId && ua.achievementId == achievement.id)

/-- Reason string written with each award:
`Achievement earned: ${achievement.name}`. -/
def awardReason (a : Achievement) : String :=
  "Achievement earned: " ++ a.name

/-- `GamificationService.awardAchievement`.  The two `create` calls are
issued through one `prisma.$transaction`, whose atomic semantics is embedded
by the `txOk` oracle: when the transaction commits (`txOk = true`) both rows
are appended, when it fails (`txOk = false`) the call raises
(`Except.error`) and the state is unchanged. -/
def awardAchievementTx (s : GamState) (userId : Nat) (achievementKey : String)
    (txOk : Bool) : Except Unit (Option Achievement) × GamState :=
  if hasAchievement s userId achievementKey then (.ok none, s)
  else
    match findAchievement s achievementKey with
    | none => (.ok none, s)
    | some achievement =>
        if !achievement.isActive then (.ok none, s)
        else if txOk then
          (.ok (some achievement),
           { s with
              userAchievements :=
                s.userAchievements ++ [⟨userId, achievement.id⟩],
              pointTransactions :=
                s.pointTransactions ++
                  [⟨userId, some achievement.id, achievement.points,
                    awardReason achievement⟩] })
        else (.error (), s)

/-- `awardAchievement` under a committing transaction (the behaviour the
rest of the service composes with). -/
def awardAchievement (s : GamState) (userId : Nat) (achievementKey : String) :
    Option Achievement × GamState :=
  match awardAchievementTx s userId achievementKey true with
  | (.ok r, s1) => (r, s1)
  | (.error _, s1) => (none, s1)

/-- `GamificationService.checkAndAwardMultiple`: award each key in order,
collecting the keys whose award returned the achievement. -/
def checkAndAwardMultiple (s : GamState) (userId : Nat) :
    List String → List String × GamState
  | [] => ([], s)
  | key :: rest =>
      match awardAchievement s userId key with
      | (some _, s1) =>
          let r := checkAndAwardMultiple s1 userId rest
          (key :: r.1, r.2)
      | (none, s1) =>
          checkAndAwardMultiple s1 userId rest

/-- The `UserStats` object returned by `getUserStats`. -/
structure UserStats where
  totalPoints : Int
  currentLevel : Option Level
  nextLevel : Option Level
  progressPercent : Int
  achievementCount : Nat
  completedAchievementCount : Nat
deriving DecidableEq, Repr

/-- `GamificationService.getUserStats`.  The JavaScript
`Math.floor((a / b) * 100)` on numbers is embedded as the exact floor
division `Int.fdiv (a * 100) b`; the final clamp is
`Math.min(100, Math.max(0, progressPercent))`. -/
def getUserStats (s : GamState) (userId : Nat) : UserStats :=
  let totalPoints := getUserPoints s userId
  let currentLevel := getUserLevel s userId
  let nextLevel := getNextLevel s userId
  let achievements := s.achievements.filter (fun a => a.isActive)
  let completedAchievements :=
    s.userAchievements.filter (fun ua => ua.userId == userId)
  let progressPercent : Int :=
    match nextLevel, currentLevel with
    | some next, some current =>
        Int.fdiv ((totalPoints - current.pointsRequired) * 100)
          (next.pointsRequired - current.pointsRequired)
    | some next, none =>
        Int.fdiv (totalPoints * 100) next.pointsRequired
    | none, _ => 100
  { totalPoints := totalPoints
    currentLevel := currentLevel
    nextLevel := nextLevel
    progressPercent := min 100 (max 0 progressPercent)
    achievementCount := achievements.length
    completedAchievementCount := completedAchievements.length }

/-! Achievement triggers (`achievement-triggers.ts`). -/

/-- Non-deleted contact join rows of a person. -/
def activeContacts (p : Person) : List PersonContact :=
  p.contactInformation.filter (fun pc => !pc.contactInformation.deleted)

/-- Non-deleted interest join rows of a person. -/
def activeInterests (p : Person) : List PersonInterest :=
  p.interests.filter (fun pi => !pi.interest.deleted)

/-- The `achievementsToCheck` list built by `checkProfileAchievements`, in
source order: profile_basics, profile_photo, first_interest,
interests_complete, profile_complete, contact_sharer.  The distinct contact
types `Set` is embedded as `dedup` of the type list. -/
def profileAchievementsToCheck (p : Person) : List String :=
  let base :=
    if truthyStr p.firstName && truthyOpt p.pronouns then ["profile_basics"]
    else []
  let photo := if truthyOpt p.imageURL then ["profile_photo"] else []
  let ac := activeContacts p
  let ai := activeInterests p
  let firstInterest := if 1 ≤ ai.length then ["first_interest"] else []
  let fiveInterests := if 5 ≤ ai.length then ["interests_complete"] else []
  let hasBasics :=
    truthyStr p.firstName && truthyOpt p.pronouns && truthyOpt p.imageURL
  let complete :=
    if hasBasics && decide (3 ≤ ac.length) && decide (5 ≤ ai.length) then
      ["profile_complete"]
    else []
  let contactTypes := (ac.map (fun c => c.contactInformation.type)).dedup
  let sharer := if 3 ≤ contactTypes.length then ["contact_sharer"] else []
  base ++ photo ++ firstInterest ++ fiveInterests ++ complete ++ sharer

/-- The `achievementsToCheck` list built by `checkPrivacyAchievements`. -/
def privacyAchievementsToCheck (p : Person) : List String :=
  let ac := activeContacts p
  let privateAddresses :=
    ac.filter (fun pc =>
      pc.contactInformation.type == "ADDRESS" &&
        pc.contactInformation.privacy == "PRIVATE")
  let firstPrivate :=
    if 1 ≤ privateAddresses.length then ["first_private_address"] else []
  let privateContacts :=
    ac.filter (fun pc => pc.contactInformation.privacy == "PRIVATE")
  let publicContacts :=
    ac.filter (fun pc => pc.contactInformation.privacy == "PUBLIC")
  let explorer :=
    if 1 ≤ privateContacts.length ∧ 1 ≤ publicContacts.length then
      ["privacy_explorer"]
    else []
  firstPrivate ++ explorer

/-- The `achievementsToCheck` list built by `checkGroupAchievements`.  The
query itself filters memberships to groups with `deleted = false`; that
`where` clause is embedded as the first filter here. -/
def groupAchievementsToCheck (p : Person) : List String :=
  let memberships := p.groupMemberships.filter (fun gm => !gm.group.deleted)
  let firstJoin := if 1 ≤ memberships.length then ["first_group_join"] else []
  let adminGroups := memberships.filter (fun gm => gm.isAdmin)
  let admin := if 1 ≤ adminGroups.length then ["group_admin"] else []
  firstJoin ++ admin

/-- The composite eligibility condition of `checkActiveMemberAchievement`:
complete profile (name, pronouns, photo, three or more active contacts),
two or more active groups, five or more active interests. -/
def activeMemberEligible (p : Person) : Bool :=
  let ac := activeContacts p
  let ai := activeInterests p
  let activeGroups := p.groupMemberships.filter (fun gm => !gm.group.deleted)
  let hasCompleteProfile :=
    truthyStr p.firstName && truthyOpt p.pronouns && truthyOpt p.imageURL &&
      decide (3 ≤ ac.length)
  hasCompleteProfile && decide (2 ≤ activeGroups.length) &&
    decide (5 ≤ ai.length)

/-- `AchievementTriggers.checkProfileAchievements`. -/
def checkProfileAchievements (s : GamState) (personId : Nat) :
    List String × GamState :=
  match findPerson s personId with
  | none => ([], s)
  | some p => checkAndAwardMultiple s p.userId (profileAchievementsToCheck p)

/-- `AchievementTriggers.checkPrivacyAchievements`. -/
def checkPrivacyAchievements (s : GamState) (personId : Nat) :
    List String × GamState :=
  match findPerson s personId with
  | none => ([], s)
  | some p => checkAndAwardMultiple s p.userId (privacyAchievementsToCheck p)

/-- `AchievementTriggers.checkGroupAchievements`. -/
def checkGroupAchievements (s : GamState) (personId : Nat) :
    List String × GamState :=
  match findPerson s personId with
  | none => ([], s)
  | some p => checkAndAwardMultiple s p.userId (groupAchievementsToCheck p)

/-- `AchievementTriggers.checkActiveMemberAchievement`. -/
def checkActiveMemberAchievement (s : GamState) (personId : Nat) :
    List String × GamState :=
  match findPerson s personId with
  | none => ([], s)
  | some p =>
      if activeMemberEligible p then
        match awardAchievement s p.userId "active_member" with
        | (some _, s1) => (["active_member"], s1)
        | (none, s1) => ([], s1)
      else ([], s)

/-! Email rate limiter (`rate-limit.ts`). -/

/-- `WINDOW_MS = 15 * 60 * 1000`. -/
def windowMs : Int := 15 * 60 * 1000

/-- `MAX_PER_WINDOW = 3`. -/
def maxPerWindow : Nat := 3

/-- `email.toLowerCase()` embedded character by character. -/
def lowerKey (s : String) : String := ⟨s.data.map Char.toLower⟩

/-- The in-memory `attempts` map; `attempts.get(key) || []` is total lookup
with default `[]`. -/
abbrev RateMap : Type := String → List Int

/-- `checkEmailRateLimit(email)` at clock value `now` (`Date.now()`);
returns the boolean result and the updated attempts map. -/
def checkEmailRateLimit (attempts : RateMap) (email : String) (now : Int) :
    Bool × RateMap :=
  let key := lowerKey email
  let recent := (attempts key).filter (fun t => now - t < windowMs)
  if maxPerWindow ≤ recent.length then
    (false, Function.update attempts key recent)
  else
    (true, Function.update attempts key (recent ++ [now]))

/-- Run a sequence of `checkEmailRateLimit` calls, collecting the results. -/
def runCalls (attempts : RateMap) : List (String × Int) → List Bool
  | [] => []
  | (email, now) :: rest =>
      let r := checkEmailRateLimit attempts email now
      r.1 :: runCalls r.2 rest

/-- One step of the specification-side sliding window: the call is allowed
exactly when fewer than `maxPerWindow` previously allowed attempts for the
lowercased address lie strictly within the preceding window. -/
def specStep (hist : List (String × Int)) (email : String) (now : Int) : Bool :=
  decide
    ((hist.filter
        (fun p => p.1 == lowerKey email && decide (now - p.2 < windowMs))).length
      < maxPerWindow)

/-- Specification-side run: a history of allowed attempts (lowercased
address, time) is extended exactly by the calls that return true. -/
def specRun (hist : List (String × Int)) : List (String × Int) → List Bool
  | [] => []
  | (email, now) :: rest =>
      if specStep hist email now then
        true :: specRun (hist ++ [(lowerKey email, now)]) rest
      else
        false :: specRun hist rest

/-! Auxiliary observation functions and concrete fixtures. -/

/-- Number of `user_achievements` rows for one (userId, achievementId). -/
def uaCount (s : GamState) (userId achievementId : Nat) : Nat :=
  (s.userAchievements.filter
    (fun ua => ua.userId == userId && ua.achievementId == achievementId)).length

/-- Number of `point_transactions` rows of the user referencing one
achievement. -/
def ptCount (s : GamState) (userId achievementId : Nat) : Nat :=
  (s.pointTransactions.filter
    (fun t => t.userId == userId && t.achievementId == some achievementId)).length

/-- Insert one extra contact join row on a person. -/
def addContact (p : Person) (c : PersonContact) : Person :=
  { p with contactInformation := c :: p.contactInformation }

/-- Insert one extra interest join row on a person. -/
def addInterest (p : Person) (i : PersonInterest) : Person :=
  { p with interests := i :: p.interests }

/-- The timestamps of the allowed attempts of one lowercased address in a
history of allowed attempts. -/
def allowedTimes (hist : List (String × Int)) (key : String) : List Int :=
  (hist.filter (fun p => p.1 == key)).map (fun p => p.2)

/-- Fixture: person with firstName, pronouns, photo, five active interests,
and three active contact rows of only two distinct types. -/
def cxPerson : Person :=
  { id := 1, userId := 7, firstName := "A", pronouns := some "she",
    imageURL := some "img",
    contactInformation :=
      [⟨⟨"EMAIL", "PUBLIC", false⟩⟩, ⟨⟨"EMAIL", "PRIVATE", false⟩⟩,
       ⟨⟨"PHONE", "PUBLIC", false⟩⟩],
    interests := [⟨⟨false⟩⟩, ⟨⟨false⟩⟩, ⟨⟨false⟩⟩, ⟨⟨false⟩⟩, ⟨⟨false⟩⟩],
    groupMemberships := [] }

/-- Fixture: person with firstName, pronouns, photo, five active interests,
and two active contact rows. -/
def twoContactPerson : Person :=
  { id := 2, userId := 8, firstName := "B", pronouns := some "he",
    imageURL := some "img",
    contactInformation :=
      [⟨⟨"EMAIL", "PUBLIC", false⟩⟩, ⟨⟨"PHONE", "PUBLIC", false⟩⟩],
    interests := [⟨⟨false⟩⟩, ⟨⟨false⟩⟩, ⟨⟨false⟩⟩, ⟨⟨false⟩⟩, ⟨⟨false⟩⟩],
    groupMemberships := [] }

/-- Fixture database state: an active achievement `k1` not yet earned by
user 4, an active achievement `k2` already earned by user 4, an inactive
achievement `k3`, and two levels. -/
def wState : GamState :=
  { achievements :=
      [⟨1, "k1", "First", 10, true⟩, ⟨2, "k2", "Second", 5, true⟩,
       ⟨3, "k3", "Third", 5, false⟩],
    userAchievements := [⟨4, 2⟩],
    pointTransactions :=
      [⟨4, some 2, 5, "Achievement earned: Second"⟩, ⟨9, none, -5, "adjust"⟩],
    levels := [⟨1, "Newcomer", 0⟩, ⟨2, "Explorer", 50⟩],
    persons := [] }

/-- The state produced by a committed award transaction: both rows appended. -/
def awardState (s : GamState) (userId : Nat) (a : Achievement) : GamState :=
  { s with
      userAchievements := s.userAchievements ++ [⟨userId, a.id⟩],
      pointTransactions :=
        s.pointTransactions ++
          [⟨userId, some a.id, a.points, awardReason a⟩] }

/-- Fixture state whose only level has a positive threshold. -/
def highLevelState : GamState :=
  { achievements := [], userAchievements := [], pointTransactions := [],
    levels := [⟨2, "Explorer", 50⟩], persons := [] }

/-- Fixture state with no levels at all. -/
def noLevelState : GamState :=
  { achievements := [], userAchievements := [], pointTransactions := [],
    levels := [], persons := [] }

/-! Helper lemmas about `awardAchievement`. -/

lemma hasAchievement_of_find_none {s : GamState} {k : String}
    (h : findAchievement s k = none) (u : Nat) : hasAchievement s u k = false := by
  unfold hasAchievement
  rw [h]

lemma tx_of_has {s : GamState} {u : Nat} {k : String}
    (h : hasAchievement s u k = true) (b : Bool) :
    awardAchievementTx s u k b = (.ok none, s) := by
  unfold awardAchievementTx
  rw [h]
  simp

lemma tx_of_missing {s : GamState} {u : Nat} {k : String}
    (h : findAchievement s k = none) (b : Bool) :
    awardAchievementTx s u k b = (.ok none, s) := by
  unfold awardAchievementTx
  rw [hasAchievement_of_find_none h u, h]
  simp

lemma tx_of_inactive {s : GamState} {u : Nat} {k : String} {a : Achievement}
    (h : findAchievement s k = some a) (ha : a.isActive = false) (b : Bool) :
    awardAchievementTx s u k b = (.ok none, s) := by
  unfold awardAchievementTx
  by_cases hh : hasAchievement s u k
  · rw [hh]; simp
  · rw [Bool.not_eq_true] at hh
    rw [hh, h]
    simp [ha]

lemma tx_of_fresh {s : GamState} {u : Nat} {k : String} {a : Achievement}
    (h : findAchievement s k = some a) (ha : a.isActive = true)
    (hh : hasAchievement s u k = false) :
    awardAchievementTx s u k true = (.ok (some a), awardState s u a) := by
  unfold awardAchievementTx
  rw [hh, h]
  simp [ha, awardState]

lemma tx_of_fresh_fail {s : GamState} {u : Nat} {k : String} {a : Achievement}
    (h : findAchievement s k = some a) (ha : a.isActive = true)
    (hh : hasAchievement s u k = false) :
    awardAchievementTx s u k false = (.error (), s) := by
  unfold awardAchievementTx
  rw [hh, h]
  simp [ha]

lemma award_of_has {s : GamState} {u : Nat} {k : String}
    (h : hasAchievement s u k = true) : awardAchievement s u k = (none, s) := by
  unfold awardAchievement
  rw [tx_of_has h]

lemma award_of_missing {s : GamState} {u : Nat} {k : String}
    (h : findAchievement s k = none) : awardAchievement s u k = (none, s) := by
  unfold awardAchievement
  rw [tx_of_missing h]

lemma award_of_inactive {s : GamState} {u : Nat} {k : String} {a : Achievement}
    (h : findAchievement s k = some a) (ha : a.isActive = false) :
    awardAchievement s u k = (none, s) := by
  unfold awardAchievement
  rw [tx_of_inactive h ha]

lemma award_of_fresh {s : GamState} {u : Nat} {k : String} {a : Achievement}
    (h : findAchievement s k = some a) (ha : a.isActive = true)
    (hh : hasAchievement s u k = false) :
    awardAchievement s u k = (some a, awardState s u a) := by
  unfold awardAchievement
  rw [tx_of_fresh h ha hh]

lemma findAchievement_awardState (s : GamState) (u : Nat) (a : Achievement)
    (k : String) : findAchievement (awardState s u a) k = findAchievement s k :=
  rfl

lemma hasAchievement_awardState_self {s : GamState} {k : String}
    {a : Achievement} (h : findAchievement s k = some a) (u : Nat) :
    hasAchievement (awardState s u a) u k = true := by
  unfold hasAchievement
  rw [findAchievement_awardState, h]
  simp [awardState, List.any_append]

lemma uaCount_awardState (s : GamState) (u : Nat) (a : Achievement)
    (aid : Nat) :
    uaCount (awardState s u a) u aid =
      uaCount s u aid + (if a.id = aid then 1 else 0) := by
  unfold uaCount awardState
  simp only [List.filter_append, List.length_append]
  by_cases hid : a.id = aid
  · simp [hid]
  · simp [hid]

lemma ptCount_awardState (s : GamState) (u : Nat) (a : Achievement)
    (aid : Nat) :
    ptCount (awardState s u a) u aid =
      ptCount s u aid + (if a.id = aid then 1 else 0) := by
  unfold ptCount awardState
  simp only [List.filter_append, List.length_append]
  by_cases hid : a.id = aid
  · simp [hid]
  · simp [hid]

lemma uaCount_eq_zero_of_not_has {s : GamState} {u : Nat} {k : String}
    {a : Achievement} (h : findAchievement s k = some a)
    (hh : hasAchievement s u k = false) : uaCount s u a.id = 0 := by
  unfold hasAchievement at hh
  rw [h] at hh
  unfold uaCount
  rw [List.length_eq_zero, List.filter_eq_nil_iff]
  intro ua hua
  have := (List.any_eq_false.mp hh) ua hua
  simpa using this

/-- C9: getUserPoints returns max(0, sum of the points of all of the point
transactions of the user): it equals the sum when the sum is non-negative,
is 0 when the sum is negative, and is never negative. -/
theorem getUserPoints_clamped (s : GamState) (u : Nat) :
    getUserPoints s u =
      max 0 ((s.pointTransactions.filter (fun t => t.userId == u)).foldl
        (fun sum t => sum + t.points) 0) ∧
    (0 ≤ (s.pointTransactions.filter (fun t => t.userId == u)).foldl
        (fun sum t => sum + t.points) 0 →
      getUserPoints s u =
        (s.pointTransactions.filter (fun t => t.userId == u)).foldl
          (fun sum t => sum + t.points) 0) ∧
    ((s.pointTransactions.filter (fun t => t.userId == u)).foldl
        (fun sum t => sum + t.points) 0 < 0 →
      getUserPoints s u = 0) ∧
    0 ≤ getUserPoints s u := by
  refine ⟨rfl, ?_, ?_, ?_⟩
  · intro h
    unfold getUserPoints
    exact max_eq_right h
  · intro h
    unfold getUserPoints
    exact max_eq_left (le_of_lt h)
  · exact le_max_left 0 _

/-- Witness for C9 at the fixture state: user 4 has a single 5-point
transaction and user 9 a single (-5)-point transaction. -/
theorem getUserPoints_clamped_witness :
    getUserPoints wState 4 =
      (wState.pointTransactions.filter (fun t => t.userId == 4)).foldl
        (fun sum t => sum + t.points) 0 ∧
    getUserPoints wState 9 = 0 ∧ 0 ≤ getUserPoints wState 9 :=
  ⟨(getUserPoints_clamped wState 4).2.1 (by decide),
   (getUserPoints_clamped wState 9).2.2.1 (by decide),
   (getUserPoints_clamped wState 9).2.2.2⟩

/-- C2: awardAchievement returns null when the achievement is already
earned, missing, or inactive; and a second call after a successful award
returns null and leaves exactly one UserAchievement row and exactly one
matching PointTransaction row. -/
theorem awardAchievement_idempotent (s : GamState) (u : Nat) (k : String) :
    (hasAchievement s u k = true → awardAchievement s u k = (none, s)) ∧
    (findAchievement s k = none → awardAchievement s u k = (none, s)) ∧
    (∀ a, findAchievement s k = some a → a.isActive = false →
      awardAchievement s u k = (none, s)) ∧
    (∀ a, findAchievement s k = some a → a.isActive = true →
      hasAchievement s u k = false → ptCount s u a.id = 0 →
      (awardAchievement (awardAchievement s u k).2 u k).1 = none ∧
      uaCount (awardAchievement (awardAchievement s u k).2 u k).2 u a.id = 1 ∧
      ptCount (awardAchievement (awardAchievement s u k).2 u k).2 u a.id = 1) := by
  refine ⟨fun h => award_of_has h, fun h => award_of_missing h,
    fun a h ha => award_of_inactive h ha, ?_⟩
  intro a h ha hh hpt
  have h1 : awardAchievement s u k = (some a, awardState s u a) :=
    award_of_fresh h ha hh
  have h2 : hasAchievement (awardState s u a) u k = true :=
    hasAchievement_awardState_self h u
  have h3 : awardAchievement (awardState s u a) u k = (none, awardState s u a) :=
    award_of_has h2
  rw [h1]
  simp only [h3]
  refine ⟨trivial, ?_, ?_⟩
  · rw [uaCount_awardState, uaCount_eq_zero_of_not_has h hh]
    simp
  · rw [ptCount_awardState, hpt]
    simp

/-- Witness for C2: awarding the active, unearned achievement `k1` twice
for user 4 in the fixture state. -/
theorem awardAchievement_idempotent_witness :
    (awardAchievement (awardAchievement wState 4 "k1").2 4 "k1").1 = none ∧
    uaCount (awardAchievement (awardAchievement wState 4 "k1").2 4 "k1").2 4 1 = 1 ∧
    ptCount (awardAchievement (awardAchievement wState 4 "k1").2 4 "k1").2 4 1 = 1 :=
  (awardAchievement_idempotent wState 4 "k1").2.2.2 ⟨1, "k1", "First", 10, true⟩
    (by decide) (by decide) (by decide) (by decide)

/-- C3: one award call either leaves the state unchanged or appends exactly
the UserAchievement row and the matching PointTransaction row of one found
achievement; when the transaction fails the state is unchanged; and for
every achievement id the two per-user row counts move together
(both unchanged or both incremented by one). -/
theorem awardAchievement_atomic (s : GamState) (u : Nat) (k : String)
    (txOk : Bool) :
    ((awardAchievementTx s u k txOk).2 = s ∨
      ∃ a, findAchievement s k = some a ∧
        (awardAchievementTx s u k txOk).2 = awardState s u a) ∧
    ((awardAchievementTx s u k txOk).1 = Except.error () →
      (awardAchievementTx s u k txOk).2 = s) ∧
    (∀ aid,
      (uaCount (awardAchievementTx s u k txOk).2 u aid = uaCount s u aid ∧
        ptCount (awardAchievementTx s u k txOk).2 u aid = ptCount s u aid) ∨
      (uaCount (awardAchievementTx s u k txOk).2 u aid = uaCount s u aid + 1 ∧
        ptCount (awardAchievementTx s u k txOk).2 u aid = ptCount s u aid + 1)) := by
  by_cases hh : hasAchievement s u k
  · rw [tx_of_has hh]
    exact ⟨Or.inl rfl, fun _ => rfl, fun _ => Or.inl ⟨rfl, rfl⟩⟩
  · rw [Bool.not_eq_true] at hh
    cases hfind : findAchievement s k with
    | none =>
        rw [tx_of_missing hfind]
        exact ⟨Or.inl rfl, fun _ => rfl, fun _ => Or.inl ⟨rfl, rfl⟩⟩
    | some a =>
        by_cases ha : a.isActive
        · cases txOk with
          | false =>
              rw [tx_of_fresh_fail hfind ha hh]
              exact ⟨Or.inl rfl, fun _ => rfl, fun _ => Or.inl ⟨rfl, rfl⟩⟩
          | true =>
              rw [tx_of_fresh hfind ha hh]
              refine ⟨Or.inr ⟨a, rfl, rfl⟩, fun hc => by simp at hc, ?_⟩
              intro aid
              by_cases hid : a.id = aid
              · right
                rw [uaCount_awardState, ptCount_awardState]
                simp [hid]
              · left
                rw [uaCount_awardState, ptCount_awardState]
                simp [hid]
        · rw [Bool.not_eq_true] at ha
          rw [tx_of_inactive hfind ha]
          exact ⟨Or.inl rfl, fun _ => rfl, fun _ => Or.inl ⟨rfl, rfl⟩⟩

/-- Witness for C3: a failed transaction on the fixture state leaves the
state unchanged, and a committed one appends both rows. -/
theorem awardAchievement_atomic_witness :
    (awardAchievementTx wState 4 "k1" false).2 = wState ∧
    ((awardAchievementTx wState 4 "k1" true).2 = wState ∨
      ∃ a, findAchievement wState "k1" = some a ∧
        (awardAchievementTx wState 4 "k1" true).2 = awardState wState 4 a) :=
  ⟨(awardAchievement_atomic wState 4 "k1" false).2.1 rfl,
   (awardAchievement_atomic wState 4 "k1" true).1⟩

/-! Helper lemmas about the level lookups. -/

lemma getUserPoints_nonneg (s : GamState) (u : Nat) : 0 ≤ getUserPoints s u :=
  le_max_left 0 _

lemma levelsDesc_perm (s : GamState) : (levelsDesc s).Perm s.levels :=
  List.mergeSort_perm s.levels _

lemma levelsDesc_pairwise (s : GamState) :
    List.Pairwise (fun a b : Level => b.pointsRequired ≤ a.pointsRequired)
      (levelsDesc s) := by
  have h := @List.sorted_mergeSort Level
    (fun a b => decide (b.pointsRequired ≤ a.pointsRequired))
    (fun a b c hab hbc => by
      simp only [decide_eq_true_eq] at hab hbc ⊢
      exact le_trans hbc hab)
    (fun a b => by
      simp only [Bool.or_eq_true, decide_eq_true_eq]
      exact le_total b.pointsRequired a.pointsRequired)
    s.levels
  exact h.imp (fun hab => of_decide_eq_true hab)

lemma levelsAsc_pairwise (s : GamState) :
    List.Pairwise (fun a b : Level => a.pointsRequired ≤ b.pointsRequired)
      (levelsAsc s) := by
  have h := @List.sorted_mergeSort Level
    (fun a b => decide (a.pointsRequired ≤ b.pointsRequired))
    (fun a b c hab hbc => by
      simp only [decide_eq_true_eq] at hab hbc ⊢
      exact le_trans hab hbc)
    (fun a b => by
      simp only [Bool.or_eq_true, decide_eq_true_eq]
      exact le_total a.pointsRequired b.pointsRequired)
    s.levels
  exact h.imp (fun hab => of_decide_eq_true hab)

lemma find?_desc_max {ls : List Level} {pts : Int} {l : Level}
    (hs : List.Pairwise (fun a b : Level => b.pointsRequired ≤ a.pointsRequired) ls)
    (hf : ls.find? (fun x => decide (x.pointsRequired ≤ pts)) = some l) :
    ∀ y ∈ ls, y.pointsRequired ≤ pts → y.pointsRequired ≤ l.pointsRequired := by
  induction ls with
  | nil => cases hf
  | cons x rest ih =>
      by_cases hx : x.pointsRequired ≤ pts
      · rw [List.find?_cons_of_pos rest (by simpa using hx)] at hf
        cases hf
        intro y hy hle
        rcases List.mem_cons.mp hy with h | h
        · rw [h]
        · exact (List.pairwise_cons.mp hs).1 y h
      · rw [List.find?_cons_of_neg rest (by simpa using hx)] at hf
        intro y hy hle
        rcases List.mem_cons.mp hy with h | h
        · rw [h] at hle; exact absurd hle hx
        · exact ih (List.pairwise_cons.mp hs).2 hf y h hle

/-- C4: getUserLevel returns the level with the greatest pointsRequired
among levels with pointsRequired at most the user points; it is none
exactly when every level threshold exceeds the points; and since points
are clamped non-negative, a level with threshold 0 rules the none case out. -/
theorem getUserLevel_spec (s : GamState) (u : Nat) :
    (∀ l, getUserLevel s u = some l →
      l ∈ s.levels ∧ l.pointsRequired ≤ getUserPoints s u ∧
      ∀ l2 ∈ s.levels, l2.pointsRequired ≤ getUserPoints s u →
        l2.pointsRequired ≤ l.pointsRequired) ∧
    (getUserLevel s u = none ↔
      ∀ l ∈ s.levels, getUserPoints s u < l.pointsRequired) ∧
    ((∃ l ∈ s.levels, l.pointsRequired = 0) → getUserLevel s u ≠ none) := by
  have hiff : getUserLevel s u = none ↔
      ∀ l ∈ s.levels, getUserPoints s u < l.pointsRequired := by
    constructor
    · intro h l hl
      have hx := List.find?_eq_none.mp h l ((levelsDesc_perm s).mem_iff.mpr hl)
      simpa using hx
    · intro h
      apply List.find?_eq_none.mpr
      intro l hl
      have hl2 : l ∈ s.levels := (levelsDesc_perm s).mem_iff.mp hl
      simpa using not_le.mpr (h l hl2)
  refine ⟨?_, hiff, ?_⟩
  · intro l hl
    have hmem : l ∈ s.levels :=
      (levelsDesc_perm s).mem_iff.mp (List.mem_of_find?_eq_some hl)
    have hpred := List.find?_some hl
    refine ⟨hmem, by simpa using hpred, ?_⟩
    intro l2 hl2 hle
    exact find?_desc_max (levelsDesc_pairwise s) hl l2
      ((levelsDesc_perm s).mem_iff.mpr hl2) hle
  · rintro ⟨l, hl, h0⟩ hnone
    have hlt := hiff.mp hnone l hl
    rw [h0] at hlt
    exact absurd hlt (not_lt.mpr (getUserPoints_nonneg s u))

/-- Witness for C4: the fixture with a 0-threshold level yields a level for
user 4; the fixture whose only threshold is 50 yields none for user 9. -/
theorem getUserLevel_spec_witness :
    getUserLevel wState 4 ≠ none ∧ getUserLevel highLevelState 9 = none :=
  ⟨(getUserLevel_spec wState 4).2.2 ⟨⟨1, "Newcomer", 0⟩, by decide, rfl⟩,
   (getUserLevel_spec highLevelState 9).2.1.mpr (by decide)⟩

/-- C5: the progressPercent of getUserStats always lies in [0, 100], and
equals 100 whenever no next level exists. -/
theorem getUserStats_progress (s : GamState) (u : Nat) :
    0 ≤ (getUserStats s u).progressPercent ∧
    (getUserStats s u).progressPercent ≤ 100 ∧
    ((getUserStats s u).nextLevel = none →
      (getUserStats s u).progressPercent = 100) := by
  refine ⟨?_, ?_, ?_⟩
  · simp only [getUserStats]
    exact le_min (by norm_num) (le_max_left 0 _)
  · simp only [getUserStats]
    exact min_le_left 100 _
  · intro h
    simp only [getUserStats] at h ⊢
    rw [h]
    norm_num

/-- Witness for C5: in the fixture with no levels the next level is none
and the progress percent is 100. -/
theorem getUserStats_progress_witness :
    (getUserStats noLevelState 0).progressPercent = 100 ∧
    0 ≤ (getUserStats wState 4).progressPercent :=
  ⟨(getUserStats_progress noLevelState 0).2.2
      (by simp [getUserStats, getNextLevel, levelsAsc, noLevelState]),
   (getUserStats_progress wState 4).1⟩

/-! Helper lemmas about `checkAndAwardMultiple`. -/

lemma award_cases (s : GamState) (u : Nat) (k : String) :
    awardAchievement s u k = (none, s) ∨
    ∃ a, findAchievement s k = some a ∧ a.isActive = true ∧
      hasAchievement s u k = false ∧
      awardAchievement s u k = (some a, awardState s u a) := by
  by_cases hh : hasAchievement s u k
  · exact Or.inl (award_of_has hh)
  · rw [Bool.not_eq_true] at hh
    cases hf : findAchievement s k with
    | none => exact Or.inl (award_of_missing hf)
    | some a =>
        by_cases ha : a.isActive
        · exact Or.inr ⟨a, rfl, ha, hh, award_of_fresh hf ha hh⟩
        · rw [Bool.not_eq_true] at ha
          exact Or.inl (award_of_inactive hf ha)

lemma award_none_eq {s : GamState} {u : Nat} {k : String} {s1 : GamState}
    (h : awardAchievement s u k = (none, s1)) : s1 = s := by
  rcases award_cases s u k with h2 | ⟨a, _, _, _, h2⟩
  · have := h2.symm.trans h
    injection this with _ h3
    exact h3.symm
  · have := h2.symm.trans h
    injection this with h3
    cases h3

lemma award_achievements_eq (s : GamState) (u : Nat) (k : String) :
    (awardAchievement s u k).2.achievements = s.achievements := by
  rcases award_cases s u k with h | ⟨a, _, _, _, h⟩ <;> rw [h] <;> rfl

lemma findAchievement_award (s : GamState) (u : Nat) (k k1 : String) :
    findAchievement (awardAchievement s u k).2 k1 = findAchievement s k1 := by
  unfold findAchievement
  rw [award_achievements_eq]

lemma award_ua_append (s : GamState) (u : Nat) (k : String) :
    ∃ t, (awardAchievement s u k).2.userAchievements =
      s.userAchievements ++ t := by
  rcases award_cases s u k with h | ⟨a, _, _, _, h⟩
  · exact ⟨[], by rw [h]; simp⟩
  · exact ⟨[⟨u, a.id⟩], by rw [h]; rfl⟩

lemma hasAchievement_award_mono {s : GamState} {u1 : Nat} {k1 : String}
    (u : Nat) (k : String) (h : hasAchievement s u1 k1 = true) :
    hasAchievement (awardAchievement s u k).2 u1 k1 = true := by
  unfold hasAchievement at h ⊢
  rw [findAchievement_award]
  cases hf : findAchievement s k1 with
  | none => rw [hf] at h; exact Bool.noConfusion h
  | some a =>
      rw [hf] at h
      have h2 : (s.userAchievements.any
          fun ua => ua.userId == u1 && ua.achievementId == a.id) = true := h
      obtain ⟨t, ht⟩ := award_ua_append s u k
      rw [ht]
      show ((s.userAchievements ++ t).any
        fun ua => ua.userId == u1 && ua.achievementId == a.id) = true
      rw [List.any_append, h2]
      rfl

lemma key_of_findAchievement {s : GamState} {k : String} {a : Achievement}
    (h : findAchievement s k = some a) : a.key = k := by
  have := List.find?_some h
  simpa using this

lemma mem_of_findAchievement {s : GamState} {k : String} {a : Achievement}
    (h : findAchievement s k = some a) : a ∈ s.achievements :=
  List.mem_of_find?_eq_some h

lemma hasAchievement_award_preserve_false {s : GamState} {u : Nat}
    {k k1 : String}
    (hNodup : (s.achievements.map (fun x => x.id)).Nodup) (hne : k ≠ k1)
    (hh1 : hasAchievement s u k1 = false) :
    hasAchievement (awardAchievement s u k).2 u k1 = false := by
  rcases award_cases s u k with h | ⟨a, hfa, _, _, h⟩
  · rw [h]; exact hh1
  · rw [h]
    unfold hasAchievement at hh1 ⊢
    rw [findAchievement_awardState]
    cases hf1 : findAchievement s k1 with
    | none => rfl
    | some a1 =>
        rw [hf1] at hh1
        have hh2 : (s.userAchievements.any
            fun ua => ua.userId == u && ua.achievementId == a1.id) = false := hh1
        show ((s.userAchievements ++ [(⟨u, a.id⟩ : UserAchievement)]).any
          fun ua => ua.userId == u && ua.achievementId == a1.id) = false
        rw [List.any_append, hh2]
        simp only [Bool.false_or, List.any_cons, List.any_nil, Bool.or_false,
          beq_self_eq_true, Bool.true_and]
        rw [beq_eq_false_iff_ne]
        intro hid
        have ha1 : a = a1 :=
          List.inj_on_of_nodup_map hNodup (mem_of_findAchievement hfa)
            (mem_of_findAchievement hf1) hid
        apply hne
        rw [← key_of_findAchievement hfa, ha1, key_of_findAchievement hf1]

lemma caam_cons_some {s : GamState} {u : Nat} {key : String}
    {a : Achievement} {s1 : GamState} (rest : List String)
    (h : awardAchievement s u key = (some a, s1)) :
    checkAndAwardMultiple s u (key :: rest) =
      (key :: (checkAndAwardMultiple s1 u rest).1,
        (checkAndAwardMultiple s1 u rest).2) := by
  simp only [checkAndAwardMultiple, h]

lemma caam_cons_none {s : GamState} {u : Nat} {key : String} {s1 : GamState}
    (rest : List String) (h : awardAchievement s u key = (none, s1)) :
    checkAndAwardMultiple s u (key :: rest) =
      checkAndAwardMultiple s1 u rest := by
  simp only [checkAndAwardMultiple, h]

lemma caam_sublist (s : GamState) (u : Nat) (keys : List String) :
    (checkAndAwardMultiple s u keys).1.Sublist keys := by
  induction keys generalizing s with
  | nil => exact List.Sublist.refl []
  | cons key rest ih =>
      cases hA : awardAchievement s u key with
      | mk r s1 =>
          cases r with
          | some a =>
              rw [caam_cons_some rest hA]
              exact (ih s1).cons₂ key
          | none =>
              rw [caam_cons_none rest hA]
              exact (ih s1).cons key

lemma caam_achievements_eq (s : GamState) (u : Nat) (keys : List String) :
    (checkAndAwardMultiple s u keys).2.achievements = s.achievements := by
  induction keys generalizing s with
  | nil => rfl
  | cons key rest ih =>
      cases hA : awardAchievement s u key with
      | mk r s1 =>
          have hs1 : s1.achievements = s.achievements := by
            have := award_achievements_eq s u key
            rw [hA] at this
            exact this
          cases r with
          | some a =>
              rw [caam_cons_some rest hA]
              simpa [hs1] using ih s1
          | none =>
              rw [caam_cons_none rest hA]
              rw [ih s1, hs1]

lemma findAchievement_caam (s : GamState) (u : Nat) (keys : List String)
    (k : String) :
    findAchievement (checkAndAwardMultiple s u keys).2 k =
      findAchievement s k := by
  unfold findAchievement
  rw [caam_achievements_eq]

lemma hasAchievement_caam_mono {s : GamState} {u1 : Nat} {k1 : String}
    (u : Nat) (keys : List String) (h : hasAchievement s u1 k1 = true) :
    hasAchievement (checkAndAwardMultiple s u keys).2 u1 k1 = true := by
  induction keys generalizing s with
  | nil => exact h
  | cons key rest ih =>
      cases hA : awardAchievement s u key with
      | mk r s1 =>
          have hs1 : hasAchievement s1 u1 k1 = true := by
            have := hasAchievement_award_mono u key h
            rw [hA] at this
            exact this
          cases r with
          | some a => rw [caam_cons_some rest hA]; exact ih hs1
          | none => rw [caam_cons_none rest hA]; exact ih hs1

lemma caam_not_mem_of_has {s : GamState} {u : Nat} {k : String}
    (keys : List String) (h : hasAchievement s u k = true) :
    k ∉ (checkAndAwardMultiple s u keys).1 := by
  induction keys generalizing s with
  | nil => simp [checkAndAwardMultiple]
  | cons key rest ih =>
      cases hA : awardAchievement s u key with
      | mk r s1 =>
          have hs1 : hasAchievement s1 u k = true := by
            have := hasAchievement_award_mono u key h
            rw [hA] at this
            exact this
          cases r with
          | some a =>
              rw [caam_cons_some rest hA]
              intro hmem
              rcases List.mem_cons.mp hmem with hk | hk
              · rcases award_cases s u key with hc | ⟨a1, _, _, hfresh, hc⟩
                · rw [hc] at hA; cases hA
                · rw [hk] at h
                  rw [h] at hfresh
                  cases hfresh
              · exact ih hs1 hk
          | none =>
              rw [caam_cons_none rest hA]
              exact ih hs1

lemma caam_not_mem_of_missing {s : GamState} {u : Nat} {k : String}
    (keys : List String) (h : findAchievement s k = none) :
    k ∉ (checkAndAwardMultiple s u keys).1 := by
  induction keys generalizing s with
  | nil => simp [checkAndAwardMultiple]
  | cons key rest ih =>
      cases hA : awardAchievement s u key with
      | mk r s1 =>
          have hs1 : findAchievement s1 k = none := by
            have := findAchievement_award s u key k
            rw [hA] at this
            rw [this]
            exact h
          cases r with
          | some a =>
              rw [caam_cons_some rest hA]
              intro hmem
              rcases List.mem_cons.mp hmem with hk | hk
              · rcases award_cases s u key with hc | ⟨a1, hf1, _, _, hc⟩
                · rw [hc] at hA; cases hA
                · rw [← hk] at hf1
                  rw [h] at hf1
                  cases hf1
              · exact ih hs1 hk
          | none =>
              rw [caam_cons_none rest hA]
              exact ih hs1

lemma caam_not_mem_of_inactive {s : GamState} {u : Nat} {k : String}
    {a : Achievement} (keys : List String) (h : findAchievement s k = some a)
    (ha : a.isActive = false) :
    k ∉ (checkAndAwardMultiple s u keys).1 := by
  induction keys generalizing s with
  | nil => simp [checkAndAwardMultiple]
  | cons key rest ih =>
      cases hA : awardAchievement s u key with
      | mk r s1 =>
          have hs1 : findAchievement s1 k = some a := by
            have := findAchievement_award s u key k
            rw [hA] at this
            rw [this]
            exact h
          cases r with
          | some a2 =>
              rw [caam_cons_some rest hA]
              intro hmem
              rcases List.mem_cons.mp hmem with hk | hk
              · rcases award_cases s u key with hc | ⟨a1, hf1, hact1, _, hc⟩
                · rw [hc] at hA; cases hA
                · rw [← hk] at hf1
                  rw [h] at hf1
                  injection hf1 with hf1
                  rw [← hf1] at hact1
                  rw [ha] at hact1
                  cases hact1
              · exact ih hs1 hk
          | none =>
              rw [caam_cons_none rest hA]
              exact ih hs1

lemma caam_mem {s : GamState} {u : Nat} {k : String} (keys : List String)
    (h : k ∈ (checkAndAwardMultiple s u keys).1) :
    hasAchievement s u k = false ∧
      hasAchievement (checkAndAwardMultiple s u keys).2 u k = true := by
  induction keys generalizing s with
  | nil => simp [checkAndAwardMultiple] at h
  | cons key rest ih =>
      cases hA : awardAchievement s u key with
      | mk r s1 =>
          cases r with
          | some a =>
              rw [caam_cons_some rest hA] at h ⊢
              rcases award_cases s u key with hc | ⟨a1, hf1, _, hfresh, hc⟩
              · rw [hc] at hA; cases hA
              · have hinj := hc.symm.trans hA
                injection hinj with ha1 hs1eq
                injection ha1 with ha1
                rcases List.mem_cons.mp h with hk | hk
                · subst hk
                  refine ⟨hfresh, ?_⟩
                  have hstart : hasAchievement s1 u k = true := by
                    rw [← hs1eq]
                    exact hasAchievement_awardState_self hf1 u
                  exact hasAchievement_caam_mono u rest hstart
                · have hrest := ih hk
                  refine ⟨?_, hrest.2⟩
                  by_cases hs : hasAchievement s u k
                  · exfalso
                    have := hasAchievement_award_mono u key hs
                    rw [hA] at this
                    rw [hrest.1] at this
                    cases this
                  · exact Bool.not_eq_true _ |>.mp hs
          | none =>
              have hs1 : s1 = s := award_none_eq hA
              rw [caam_cons_none rest hA] at h ⊢
              rw [hs1] at h ⊢
              exact ih h

lemma caam_complete {s : GamState} {u : Nat} {k : String}
    (keys : List String)
    (hNodup : (s.achievements.map (fun x => x.id)).Nodup)
    (hmem : k ∈ keys) (hh : hasAchievement s u k = false)
    (hfind : ∃ a, findAchievement s k = some a ∧ a.isActive = true) :
    k ∈ (checkAndAwardMultiple s u keys).1 := by
  induction keys generalizing s with
  | nil => cases hmem
  | cons key rest ih =>
      obtain ⟨a, hfa, hact⟩ := hfind
      by_cases hk : key = k
      · subst hk
        have hA : awardAchievement s u key = (some a, awardState s u a) :=
          award_of_fresh hfa hact hh
        rw [caam_cons_some rest hA]
        exact List.mem_cons_self key _
      · have hmem2 : k ∈ rest := by
          rcases List.mem_cons.mp hmem with h2 | h2
          · exact absurd h2.symm hk
          · exact h2
        cases hA : awardAchievement s u key with
        | mk r s1 =>
            have hach : s1.achievements = s.achievements := by
              have := award_achievements_eq s u key
              rw [hA] at this
              exact this
            have hf1 : findAchievement s1 k = some a := by
              have := findAchievement_award s u key k
              rw [hA] at this
              rw [this]
              exact hfa
            have hh1 : hasAchievement s1 u k = false := by
              have := hasAchievement_award_preserve_false hNodup hk hh
              rw [hA] at this
              exact this
            have hNodup1 : (s1.achievements.map (fun x => x.id)).Nodup := by
              rw [hach]
              exact hNodup
            cases r with
            | some a2 =>
                rw [caam_cons_some rest hA]
                exact List.mem_cons_of_mem key
                  (ih hNodup1 hmem2 hh1 ⟨a, hf1, hact⟩)
            | none =>
                rw [caam_cons_none rest hA]
                exact ih hNodup1 hmem2 hh1 ⟨a, hf1, hact⟩

/-- C6: checkAndAwardMultiple processes the keys in list order and returns
exactly the newly awarded ones: the result is an ordered sublist of the
input; keys already earned, missing, or inactive are silently omitted;
every returned key was not earned before the call and is earned after it;
and (given the database uniqueness of achievement ids) every input key that
was unearned and names an active achievement is returned. -/
theorem checkAndAwardMultiple_spec (s : GamState) (u : Nat)
    (keys : List String) :
    (checkAndAwardMultiple s u keys).1.Sublist keys ∧
    (∀ k, hasAchievement s u k = true →
      k ∉ (checkAndAwardMultiple s u keys).1) ∧
    (∀ k, findAchievement s k = none →
      k ∉ (checkAndAwardMultiple s u keys).1) ∧
    (∀ k a, findAchievement s k = some a → a.isActive = false →
      k ∉ (checkAndAwardMultiple s u keys).1) ∧
    (∀ k, k ∈ (checkAndAwardMultiple s u keys).1 →
      hasAchievement s u k = false ∧
      hasAchievement (checkAndAwardMultiple s u keys).2 u k = true) ∧
    ((s.achievements.map (fun x => x.id)).Nodup →
      ∀ k ∈ keys, hasAchievement s u k = false →
      (∃ a, findAchievement s k = some a ∧ a.isActive = true) →
      k ∈ (checkAndAwardMultiple s u keys).1) :=
  ⟨caam_sublist s u keys,
   fun _ h => caam_not_mem_of_has keys h,
   fun _ h => caam_not_mem_of_missing keys h,
   fun _ _ h ha => caam_not_mem_of_inactive keys h ha,
   fun _ h => caam_mem keys h,
   fun hN k hk hh hf => caam_complete keys hN hk hh hf⟩

/-- Witness for C6 on the fixture state and user 4 with a mixed key list:
the earned key k2, the inactive key k3 and the unknown key are omitted,
the fresh active key k1 is returned. -/
theorem checkAndAwardMultiple_spec_witness :
    "k1" ∈ (checkAndAwardMultiple wState 4 ["k2", "k1", "k3", "nope"]).1 ∧
    "k2" ∉ (checkAndAwardMultiple wState 4 ["k2", "k1", "k3", "nope"]).1 ∧
    "k3" ∉ (checkAndAwardMultiple wState 4 ["k2", "k1", "k3", "nope"]).1 ∧
    "nope" ∉ (checkAndAwardMultiple wState 4 ["k2", "k1", "k3", "nope"]).1 :=
  ⟨(checkAndAwardMultiple_spec wState 4 ["k2", "k1", "k3", "nope"]).2.2.2.2.2
      (by decide) "k1" (by decide) (by decide)
      ⟨⟨1, "k1", "First", 10, true⟩, by decide, rfl⟩,
   (checkAndAwardMultiple_spec wState 4 ["k2", "k1", "k3", "nope"]).2.1
      "k2" (by decide),
   (checkAndAwardMultiple_spec wState 4 ["k2", "k1", "k3", "nope"]).2.2.2.1
      "k3" ⟨3, "k3", "Third", 5, false⟩ (by decide) rfl,
   (checkAndAwardMultiple_spec wState 4 ["k2", "k1", "k3", "nope"]).2.2.1
      "nope" (by decide)⟩

/-- C1 counterexample: `cxPerson` has firstName, pronouns, photo, five
active interests and only two distinct active contact types, yet
checkProfileAchievements does include profile_complete among the keys it
attempts to award, because the code requires three contact rows, not three
distinct types. -/
theorem profileComplete_two_types_counterexample :
    truthyStr cxPerson.firstName = true ∧
    truthyOpt cxPerson.pronouns = true ∧
    truthyOpt cxPerson.imageURL = true ∧
    (activeInterests cxPerson).length = 5 ∧
    ((activeContacts cxPerson).map
      (fun c => c.contactInformation.type)).dedup.length = 2 ∧
    "profile_complete" ∈ profileAchievementsToCheck cxPerson := by
  decide

/-- C1 (amended): for every person having firstName, pronouns, a photo,
five active interests and at most two active contact rows,
checkProfileAchievements does not attempt profile_complete (which requires
three or more active contact rows) but does attempt interests_complete. -/
theorem profileAchievements_two_contact_rows (p : Person)
    (h1 : truthyStr p.firstName = true) (h2 : truthyOpt p.pronouns = true)
    (h3 : truthyOpt p.imageURL = true)
    (h4 : (activeInterests p).length = 5)
    (h5 : (activeContacts p).length ≤ 2) :
    "profile_complete" ∉ profileAchievementsToCheck p ∧
    "interests_complete" ∈ profileAchievementsToCheck p := by
  have h6 : ¬(3 ≤ (activeContacts p).length) := by omega
  have h6b : decide (3 ≤ (activeContacts p).length) = false := by
    simpa using h6
  simp only [profileAchievementsToCheck, h1, h2, h3, h4, h6b, Bool.true_and,
    Bool.false_and, Bool.and_false, Bool.if_false_left, Bool.if_false_right]
  by_cases hs :
      3 ≤ ((activeContacts p).map (fun c => c.contactInformation.type)).dedup.length
  · simp [hs]
  · simp [hs]

/-- Witness for the amended C1: the fixture person with exactly two active
contact rows. -/
theorem profileAchievements_two_contact_rows_witness :
    "profile_complete" ∉ profileAchievementsToCheck twoContactPerson ∧
    "interests_complete" ∈ profileAchievementsToCheck twoContactPerson :=
  profileAchievements_two_contact_rows twoContactPerson rfl rfl rfl
    (by decide) (by decide)

/-- C7: a deleted contact row and a deleted interest row contribute to no
count used by checkProfileAchievements, checkPrivacyAchievements, or the
checkActiveMemberAchievement eligibility condition. -/
theorem deleted_rows_excluded (p : Person) (c : PersonContact)
    (i : PersonInterest) (hc : c.contactInformation.deleted = true)
    (hi : i.interest.deleted = true) :
    profileAchievementsToCheck (addContact (addInterest p i) c) =
      profileAchievementsToCheck p ∧
    privacyAchievementsToCheck (addContact (addInterest p i) c) =
      privacyAchievementsToCheck p ∧
    activeMemberEligible (addContact (addInterest p i) c) =
      activeMemberEligible p := by
  have hac : activeContacts (addContact (addInterest p i) c) =
      activeContacts p := by
    unfold activeContacts addContact addInterest
    simp [hc]
  have hai : activeInterests (addContact (addInterest p i) c) =
      activeInterests p := by
    unfold activeInterests addContact addInterest
    simp [hi]
  refine ⟨?_, ?_, ?_⟩
  · simp only [profileAchievementsToCheck]
    rw [hac, hai]
    rfl
  · simp only [privacyAchievementsToCheck]
    rw [hac]
  · simp only [activeMemberEligible]
    rw [hac, hai]
    rfl

/-- Witness for C7: concrete deleted rows added to the fixture person. -/
theorem deleted_rows_excluded_witness :
    profileAchievementsToCheck
        (addContact (addInterest cxPerson ⟨⟨true⟩⟩) ⟨⟨"X", "PUBLIC", true⟩⟩) =
      profileAchievementsToCheck cxPerson ∧
    privacyAchievementsToCheck
        (addContact (addInterest cxPerson ⟨⟨true⟩⟩) ⟨⟨"X", "PUBLIC", true⟩⟩) =
      privacyAchievementsToCheck cxPerson ∧
    activeMemberEligible
        (addContact (addInterest cxPerson ⟨⟨true⟩⟩) ⟨⟨"X", "PUBLIC", true⟩⟩) =
      activeMemberEligible cxPerson :=
  deleted_rows_excluded cxPerson ⟨⟨"X", "PUBLIC", true⟩⟩ ⟨⟨true⟩⟩ rfl rfl

/-- C8: when the person id resolves to no person, every trigger check
returns the empty list and leaves the state unchanged. -/
theorem person_not_found_noop (s : GamState) (personId : Nat)
    (h : findPerson s personId = none) :
    checkProfileAchievements s personId = ([], s) ∧
    checkPrivacyAchievements s personId = ([], s) ∧
    checkGroupAchievements s personId = ([], s) ∧
    checkActiveMemberAchievement s personId = ([], s) := by
  unfold checkProfileAchievements checkPrivacyAchievements
    checkGroupAchievements checkActiveMemberAchievement
  rw [h]
  exact ⟨rfl, rfl, rfl, rfl⟩

/-- Witness for C8: the fixture state with an empty persons table. -/
theorem person_not_found_noop_witness :
    checkProfileAchievements noLevelState 0 = ([], noLevelState) ∧
    checkPrivacyAchievements noLevelState 0 = ([], noLevelState) ∧
    checkGroupAchievements noLevelState 0 = ([], noLevelState) ∧
    checkActiveMemberAchievement noLevelState 0 = ([], noLevelState) :=
  person_not_found_noop noLevelState 0 rfl

/-! Helper lemmas about the email rate limiter. -/

lemma rate_false {st : RateMap} {e : String} {t : Int}
    (h : maxPerWindow ≤
      ((st (lowerKey e)).filter (fun x => decide (t - x < windowMs))).length) :
    checkEmailRateLimit st e t =
      (false, Function.update st (lowerKey e)
        ((st (lowerKey e)).filter (fun x => decide (t - x < windowMs)))) := by
  simp only [checkEmailRateLimit]
  rw [if_pos h]

lemma rate_true {st : RateMap} {e : String} {t : Int}
    (h : ¬maxPerWindow ≤
      ((st (lowerKey e)).filter (fun x => decide (t - x < windowMs))).length) :
    checkEmailRateLimit st e t =
      (true, Function.update st (lowerKey e)
        ((st (lowerKey e)).filter (fun x => decide (t - x < windowMs)) ++ [t])) := by
  simp only [checkEmailRateLimit]
  rw [if_neg h]

lemma filter_window_absorb (l : List Int) (t now : Int) (h : t ≤ now) :
    (l.filter (fun x => decide (t - x < windowMs))).filter
        (fun x => decide (now - x < windowMs)) =
      l.filter (fun x => decide (now - x < windowMs)) := by
  rw [List.filter_filter]
  apply List.filter_congr
  intro a _
  by_cases hx : now - a < windowMs
  · have ht : t - a < windowMs := by omega
    simp [hx, ht]
  · simp [hx]

lemma spec_count_eq (hist : List (String × Int)) (key : String) (now : Int) :
    (hist.filter (fun p => p.1 == key && decide (now - p.2 < windowMs))).length =
      ((allowedTimes hist key).filter
        (fun x => decide (now - x < windowMs))).length := by
  unfold allowedTimes
  rw [List.filter_map, List.length_map, List.filter_filter]
  congr 1
  apply List.filter_congr
  intro a _
  simp [Function.comp, Bool.and_comm]

lemma allowedTimes_append_other {hist : List (String × Int)}
    {key k : String} (t : Int) (h : key ≠ k) :
    allowedTimes (hist ++ [(key, t)]) k = allowedTimes hist k := by
  unfold allowedTimes
  rw [List.filter_append]
  have : (key == k) = false := beq_eq_false_iff_ne.mpr h
  simp [this]

lemma allowedTimes_append_self (hist : List (String × Int)) (key : String)
    (t : Int) :
    allowedTimes (hist ++ [(key, t)]) key = allowedTimes hist key ++ [t] := by
  unfold allowedTimes
  rw [List.filter_append]
  simp

lemma runCalls_eq_specRun_aux (calls : List (String × Int)) :
    ∀ (st : RateMap) (hist : List (String × Int)) (T : Int),
      List.Pairwise (fun a b : String × Int => a.2 ≤ b.2) calls →
      (∀ c ∈ calls, T ≤ c.2) →
      (∀ k now, T ≤ now →
        (st k).filter (fun x => decide (now - x < windowMs)) =
          (allowedTimes hist k).filter (fun x => decide (now - x < windowMs))) →
      runCalls st calls = specRun hist calls := by
  induction calls with
  | nil =>
      intro st hist T _ _ _
      rfl
  | cons c rest ih =>
      obtain ⟨e, t⟩ := c
      intro st hist T hPW hT hInv
      have hTt : T ≤ t := hT (e, t) (List.mem_cons_self _ _)
      have hPW2 := List.pairwise_cons.mp hPW
      have hInv_t := hInv (lowerKey e) t hTt
      have hcnt : ((st (lowerKey e)).filter
            (fun x => decide (t - x < windowMs))).length =
          (hist.filter
            (fun p => p.1 == lowerKey e && decide (t - p.2 < windowMs))).length := by
        rw [hInv_t, spec_count_eq]
      by_cases hdec : maxPerWindow ≤
          ((st (lowerKey e)).filter (fun x => decide (t - x < windowMs))).length
      · have hspec : specStep hist e t = false := by
          unfold specStep
          rw [decide_eq_false_iff_not, not_lt, ← hcnt]
          exact hdec
        simp only [runCalls, rate_false hdec, specRun, hspec, Bool.false_eq_true,
          if_false]
        refine congrArg (List.cons false) (ih _ hist t hPW2.2 hPW2.1 ?_)
        intro k now hnow
        by_cases hk : k = lowerKey e
        · subst hk
          rw [Function.update_same]
          rw [filter_window_absorb _ t now hnow]
          exact hInv _ now (le_trans hTt hnow)
        · rw [Function.update_noteq hk]
          exact hInv k now (le_trans hTt hnow)
      · have hspec : specStep hist e t = true := by
          unfold specStep
          rw [decide_eq_true_eq, ← hcnt]
          exact not_le.mp hdec
        simp only [runCalls, rate_true hdec, specRun, hspec, if_true]
        refine congrArg (List.cons true)
          (ih _ (hist ++ [(lowerKey e, t)]) t hPW2.2 hPW2.1 ?_)
        intro k now hnow
        by_cases hk : k = lowerKey e
        · subst hk
          rw [Function.update_same, allowedTimes_append_self,
            List.filter_append, List.filter_append,
            filter_window_absorb _ t now hnow,
            hInv _ now (le_trans hTt hnow)]
        · rw [Function.update_noteq hk,
            allowedTimes_append_other t (fun hx => hk hx.symm)]
          exact hInv k now (le_trans hTt hnow)

/-- C10: over any nondecreasing clock, the rate limiter result sequence
coincides with the sliding-window specification (a call is denied exactly
when three or more previously allowed attempts of the same lowercased
address lie strictly within the preceding fifteen minutes); a denied call
appends no timestamp (the stored list only shrinks), and an allowed call
records its timestamp. -/
theorem checkEmailRateLimit_sliding_window :
    (∀ calls : List (String × Int),
      List.Chain' (fun a b : String × Int => a.2 ≤ b.2) calls →
      runCalls (fun _ => []) calls = specRun [] calls) ∧
    (∀ (st : RateMap) (e : String) (t : Int),
      (checkEmailRateLimit st e t).1 = false →
      ((checkEmailRateLimit st e t).2 (lowerKey e)).Sublist (st (lowerKey e))) ∧
    (∀ (st : RateMap) (e : String) (t : Int),
      (checkEmailRateLimit st e t).1 = true →
      (checkEmailRateLimit st e t).2 (lowerKey e) =
        (st (lowerKey e)).filter (fun x => decide (t - x < windowMs)) ++ [t]) := by
  refine ⟨?_, ?_, ?_⟩
  · intro calls hchain
    haveI : IsTrans (String × Int) (fun a b => a.2 ≤ b.2) :=
      ⟨fun _ _ _ hab hbc => le_trans hab hbc⟩
    rw [List.chain'_iff_pairwise] at hchain
    cases calls with
    | nil => rfl
    | cons c rest =>
        apply runCalls_eq_specRun_aux (c :: rest) _ [] c.2 hchain
        · intro x hx
          rcases List.mem_cons.mp hx with h | h
          · rw [h]
          · exact (List.pairwise_cons.mp hchain).1 x h
        · intro k now _
          rfl
  · intro st e t h
    by_cases hdec : maxPerWindow ≤
        ((st (lowerKey e)).filter (fun x => decide (t - x < windowMs))).length
    · rw [rate_false hdec]
      simp only [Function.update_same]
      exact List.filter_sublist _
    · rw [rate_true hdec] at h
      cases h
  · intro st e t h
    by_cases hdec : maxPerWindow ≤
        ((st (lowerKey e)).filter (fun x => decide (t - x < windowMs))).length
    · rw [rate_false hdec] at h
      cases h
    · rw [rate_true hdec]
      simp only [Function.update_same]

/-- Witness for C10: a five-call trace of case-varying spellings of one
address (three allowed, a fourth denied inside the window, a fifth allowed
after the window has passed), plus one denied and one allowed single call. -/
theorem checkEmailRateLimit_sliding_window_witness :
    runCalls (fun _ => [])
        [("A@x", 0), ("a@x", 1), ("a@X", 2), ("a@x", 3), ("a@x", 900002)] =
      specRun []
        [("A@x", 0), ("a@x", 1), ("a@X", 2), ("a@x", 3), ("a@x", 900002)] ∧
    runCalls (fun _ => [])
        [("A@x", 0), ("a@x", 1), ("a@X", 2), ("a@x", 3), ("a@x", 900002)] =
      [true, true, true, false, true] ∧
    ((checkEmailRateLimit (fun _ => [0, 1, 2]) "A" 3).2
        (lowerKey "A")).Sublist [0, 1, 2] ∧
    (checkEmailRateLimit (fun _ => []) "B" 5).2 (lowerKey "B") = [5] :=
  ⟨checkEmailRateLimit_sliding_window.1
      [("A@x", 0), ("a@x", 1), ("a@X", 2), ("a@x", 3), ("a@x", 900002)]
      (by simp [List.chain'_cons]),
   by decide,
   checkEmailRateLimit_sliding_window.2.1 (fun _ => [0, 1, 2]) "A" 3 (by decide),
   checkEmailRateLimit_sliding_window.2.2 (fun _ => []) "B" 5 (by decide)⟩
